import Mathlib

/-!
# Verification of the hammer atomic deployment engine

Shallow embedding of `core/src/main.rs` (the btrfs deployment engine) and
`progress-bar/src/main.rs` (the stdin progress filter) of the
HackerOS-Linux-System/hammer repository.

The engine's effects live in an explicit `World` record (the snapshot store,
the filesystem's default-subvolume metadata, the `current` symlink, the set of
bind mounts, and the deployments directory listing).  Outcomes of external
tools (`btrfs`, `mount`/`umount`, `ls`, the chroot APT step, symlink syscalls)
are supplied by an `Env` oracle; the behaviour of each tool on a given world
is modelled from the external-interface contract of the specification (e.g. a
`btrfs subvolume snapshot` to an already-existing destination fails, and
`btrfs subvolume show` fails on a path that is not a subvolume).  Every
function below is a direct translation of the Rust function of the same name;
state changes made before a failure are kept, exactly as in the code.
-/

/-!
## String primitives

Rust's `str` operations, modelled on the character list underlying a Lean
`String` (for valid UTF-8, byte-wise and codepoint-wise lexicographic
comparison agree, so `List Char` comparisons model Rust's `str` ordering).
-/

/-- `str::starts_with`. -/
def strStartsWith (s p : String) : Bool := p.data.isPrefixOf s.data

/-- Rust slicing `s[n..]` at an ASCII-prefix boundary (`n` leading ASCII
characters occupy `n` bytes). -/
def strDrop (s : String) (n : Nat) : String := ⟨s.data.drop n⟩

/-- `str::trim`: remove leading and trailing whitespace. -/
def strTrim (s : String) : String :=
  ⟨((s.data.dropWhile Char.isWhitespace).reverse.dropWhile
      Char.isWhitespace).reverse⟩

/-- Strict codepoint comparison of characters (Rust's `char`/byte order). -/
def charLtb (a b : Char) : Bool := a.toNat < b.toNat

/-- Lexicographic `≤` on character lists. -/
def lexLe : List Char → List Char → Bool
  | [], _ => true
  | _ :: _, [] => false
  | a :: as, b :: bs =>
    if charLtb a b then true
    else if charLtb b a then false
    else lexLe as bs

/-- Rust's `Ord` for `String` (lexicographic), as used by `Vec::sort`. -/
def strLe (a b : String) : Bool := lexLe a.data b.data

/-- The ordering relation `Vec::sort` sorts by, as a proposition. -/
def strOrd (a b : String) : Prop := strLe a b = true

instance : DecidableRel strOrd := fun a b => by unfold strOrd; infer_instance

/-- `Vec::sort()` on a vector of strings: a stable sort by the lexicographic
order (any stable sort of a total order computes the same list). -/
def rustSort (l : List String) : List String := l.insertionSort strOrd

namespace Hammer

/-- `DEPLOYMENTS_DIR` constant from `main.rs`. -/
def DEPLOYMENTS_DIR : String := "/btrfs-root/deployments"

/-- `CURRENT_SYMLINK` constant from `main.rs`. -/
def CURRENT_SYMLINK : String := "/btrfs-root/current"

/-- A btrfs subvolume: its absolute path, the opaque subvolume id the
filesystem assigned to it, and its read-only property. -/
structure Subvol where
  path : String
  id : String
  ro : Bool
deriving Repr, DecidableEq

/-- The filesystem state the program manipulates. -/
structure World where
  /-- All subvolumes, by absolute path. -/
  subvols : List Subvol
  /-- Existing paths that are not subvolumes (plain files/directories). -/
  otherPaths : List String
  /-- The filesystem's default-subvolume metadata (next-boot default), an id. -/
  defaultSubvol : String
  /-- Target of the `current` symlink, `none` when the symlink is absent. -/
  current : Option String
  /-- Targets of currently established bind mounts, in mount order. -/
  mounts : List String
  /-- File names listed in the deployments directory. -/
  deployments : List String
deriving Repr, DecidableEq

/-- Outcomes of the external tools, per invocation site. -/
structure Env where
  /-- `Local::now().format("%Y-%m-%d")`. -/
  today : String
  /-- The subvolume id btrfs assigns to a freshly created snapshot. -/
  newId : String
  /-- Does `ls` of the deployments directory succeed. -/
  lsOk : Bool
  /-- Tool-level success of `btrfs subvolume snapshot` (beyond the
  modelled destination-exists failure). -/
  snapshotOk : Bool
  /-- Success of `btrfs property set -ts <path> ro <v>` (beyond the
  modelled not-a-subvolume failure). -/
  propertySetOk : Bool
  /-- Success of `btrfs subvolume set-default`. -/
  setDefaultOk : Bool
  /-- Success of `fs::remove_file` on the current symlink. -/
  removeFileOk : Bool
  /-- Success of `symlink(deployment, CURRENT_SYMLINK)`. -/
  symlinkOk : Bool
  /-- Exit status of the APT command run inside the chroot. -/
  chrootOk : Bool
  /-- Success of `mount --bind /<dir> <target>`, per pseudo-fs name. -/
  mountOk : String → Bool
  /-- Success of `umount <target>`, per pseudo-fs name. -/
  umountOk : String → Bool
  /-- Success of `btrfs subvolume delete <path>`, per path (beyond the
  modelled not-a-subvolume failure). -/
  deleteOk : String → Bool

/-- One error constructor per distinct error site of `main.rs`; each
corresponds to one `return Err(...)` with the quoted message. -/
inductive Err where
  /-- "Failed to create deployment: ..." (`btrfs subvolume snapshot` failed;
  the specification surfaces this as `NameCollision`/`AlreadyExists` when the
  destination already exists). -/
  | createFailed
  /-- `fs::read_link(CURRENT_SYMLINK)?` failed (no current pointer). -/
  | readLinkFailed
  /-- "Failed to install/remove in chroot: ..." (APT step failed). -/
  | chrootFailed
  /-- "Failed to mount <dir>: ..." (the spec's `MountFailed`). -/
  | mountFailed (dir : String)
  /-- "Failed to umount <dir>: ...". -/
  | umountFailed (dir : String)
  /-- "Failed to set readonly ...". -/
  | setReadonlyFailed
  /-- "Failed to set default subvolume: ...". -/
  | setDefaultFailed
  /-- "Not enough deployments for rollback." (the spec's
  `InsufficientHistory`). -/
  | notEnoughDeployments
  /-- "Deployment {} does not exist." (the spec's `NotFound`). -/
  | deploymentMissing (target : String)
  /-- "Failed to get subvolume ID." / "Subvolume ID not found.". -/
  | subvolIdFailed
  /-- `fs::remove_file(CURRENT_SYMLINK)?` failed inside promote step 2. -/
  | removeFileFailed
  /-- `symlink(..)?` failed inside promote step 2. -/
  | symlinkFailed
  /-- "Failed to list deployments.". -/
  | listFailed
deriving Repr, DecidableEq

/-- Does a path exist on disk (`Path::new(p).exists()`). -/
def pathExists (w : World) (p : String) : Bool :=
  w.subvols.any (fun s => s.path == p) || w.otherPaths.contains p ||
    w.deployments.any (fun n => DEPLOYMENTS_DIR ++ "/" ++ n == p)

/-- Look up the subvolume at a path. -/
def findSubvol (w : World) (p : String) : Option Subvol :=
  w.subvols.find? (fun s => s.path == p)

/-- `get_subvol_id` from `main.rs`: `btrfs subvolume show <path>` and parse
the "Subvolume ID:" line; the tool fails when `path` is not a subvolume. -/
def get_subvol_id (w : World) (path : String) : Except Err String :=
  match findSubvol w path with
  | some s => .ok s.id
  | none => .error .subvolIdFailed

/-- `set_subvolume_readonly` from `main.rs`:
`btrfs property set -ts <path> ro <value>`; fails when the tool reports
failure or `path` is not a subvolume. -/
def set_subvolume_readonly (env : Env) (w : World) (path : String)
    (readonly : Bool) : Except Err Unit × World :=
  if env.propertySetOk && (findSubvol w path).isSome then
    let updated := w.subvols.map
      (fun s => if s.path == path then { s with ro := readonly } else s)
    (.ok (), { w with subvols := updated })
  else (.error .setReadonlyFailed, w)

/-- `switch_to_deployment` from `main.rs` (the spec's C3 `promote`):
resolve the subvolume id, `btrfs subvolume set-default <id> /`, then replace
the current symlink (remove it when present, create it anew).  Every failure
propagates via `?`. -/
def switch_to_deployment (env : Env) (w : World) (deployment : String) :
    Except Err Unit × World :=
  match get_subvol_id w deployment with
  | .error e => (.error e, w)
  | .ok id =>
    if !env.setDefaultOk then (.error .setDefaultFailed, w)
    else
      let w1 := { w with defaultSubvol := id }
      match w1.current with
      | some _ =>
        if !env.removeFileOk then (.error .removeFileFailed, w1)
        else
          let w2 := { w1 with current := none }
          if !env.symlinkOk then (.error .symlinkFailed, w2)
          else (.ok (), { w2 with current := some deployment })
      | none =>
        if !env.symlinkOk then (.error .symlinkFailed, w1)
        else (.ok (), { w1 with current := some deployment })

/-- Record a path as existing (`fs::create_dir_all`). -/
def addPath (w : World) (p : String) : World :=
  if w.otherPaths.contains p then w else { w with otherPaths := p :: w.otherPaths }

/-- The loop body of `bind_mounts_for_chroot`, over the remaining directory
names: create the target directory, then `mount --bind` (or `umount`) it;
return the error as soon as one command fails. -/
def bindMountsGo (env : Env) (chroot_path : String) (mount : Bool) :
    List String → World → Except Err Unit × World
  | [], w => (.ok (), w)
  | dir :: rest, w =>
    let target := chroot_path ++ "/" ++ dir
    let w1 := addPath w target
    if mount then
      if env.mountOk dir then
        bindMountsGo env chroot_path mount rest
          { w1 with mounts := w1.mounts ++ [target] }
      else (.error (.mountFailed dir), w1)
    else
      if env.umountOk dir then
        bindMountsGo env chroot_path mount rest
          { w1 with mounts := w1.mounts.filter (fun m => m ≠ target) }
      else (.error (.umountFailed dir), w1)

/-- `bind_mounts_for_chroot` from `main.rs`: iterate over
`["proc", "sys", "dev"]` mounting (or unmounting) each in turn. -/
def bind_mounts_for_chroot (env : Env) (w : World) (chroot_path : String)
    (mount : Bool) : Except Err Unit × World :=
  bindMountsGo env chroot_path mount ["proc", "sys", "dev"] w

/-- `create_deployment` from `main.rs`: read the current pointer, derive the
name `hammer-<today>`, snapshot the current root there (`-r` when not
writable), and for a writable deployment clear the read-only property. -/
def create_deployment (env : Env) (w : World) (writable : Bool) :
    Except Err String × World :=
  match w.current with
  | none => (.error .readLinkFailed, w)
  | some current =>
    let new_deployment := DEPLOYMENTS_DIR ++ "/hammer-" ++ env.today
    if pathExists w new_deployment || !env.snapshotOk then
      (.error .createFailed, w)
    else
      match findSubvol w current with
      | none => (.error .createFailed, w)
      | some _ =>
        let newSv : Subvol :=
          { path := new_deployment, id := env.newId, ro := !writable }
        let w1 := { w with
          subvols := w.subvols ++ [newSv],
          deployments := w.deployments ++ ["hammer-" ++ env.today] }
        if writable then
          match set_subvolume_readonly env w1 new_deployment false with
          | (.ok _, w2) => (.ok new_deployment, w2)
          | (.error e, w2) => (.error e, w2)
        else (.ok new_deployment, w1)

/-- `get_deployments` from `main.rs`: `ls` the deployments directory, keep
the lines starting with `hammer-`, and prepend the directory path. -/
def get_deployments (env : Env) (w : World) : Except Err (List String) :=
  if !env.lsOk then .error .listFailed
  else .ok ((w.deployments.filter (fun n => strStartsWith n "hammer-")).map
      (fun n => DEPLOYMENTS_DIR ++ "/" ++ n))

/-- `switch_deployment` from `main.rs`: with an explicit argument the target
is the plain concatenation `<DEPLOYMENTS_DIR>/<dep>`; without one, list the
history, require at least two entries, sort, and take the second-newest.
Then check existence and promote. -/
def switch_deployment (env : Env) (w : World) (deploymentArg : Option String) :
    Except Err Unit × World :=
  match deploymentArg with
  | some dep =>
    let target := DEPLOYMENTS_DIR ++ "/" ++ dep
    if !(pathExists w target) then (.error (.deploymentMissing target), w)
    else switch_to_deployment env w target
  | none =>
    match get_deployments env w with
    | .error e => (.error e, w)
    | .ok deployments =>
      if deployments.length < 2 then (.error .notEnoughDeployments, w)
      else
        let sorted := rustSort deployments
        let target := sorted.getD (sorted.length - 2) ""
        if !(pathExists w target) then
          (.error (.deploymentMissing target), w)
        else switch_to_deployment env w target

/-- Effect of a successful `btrfs subvolume delete <dep>`: the subvolume and
its directory entry disappear. -/
def deleteSubvol (w : World) (dep : String) : World :=
  { w with
    subvols := w.subvols.filter (fun s => s.path ≠ dep),
    deployments := w.deployments.filter
      (fun n => DEPLOYMENTS_DIR ++ "/" ++ n ≠ dep) }

/-- The deletion loop of `clean_up`: delete each deployment in turn; a
failure is only logged (`eprintln!`) and the loop continues. -/
def deleteLoop (env : Env) : List String → World → World
  | [], w => w
  | dep :: rest, w =>
    let w1 := if env.deleteOk dep && (findSubvol w dep).isSome then
        deleteSubvol w dep
      else w
    deleteLoop env rest w1

/-- `clean_up` from `main.rs`: prune containers (no filesystem effect
modelled), list the history, sort ascending, and when more than 5 entries
exist delete all but the last 5, oldest first. -/
def clean_up (env : Env) (w : World) : Except Err Unit × World :=
  match get_deployments env w with
  | .error e => (.error e, w)
  | .ok deployments =>
    let sorted := rustSort deployments
    if sorted.length > 5 then
      (.ok (), deleteLoop env (sorted.take (sorted.length - 5)) w)
    else (.ok (), w)

/-- `atomic_install` from `main.rs`: create a writable deployment, establish
the bind mounts, run APT inside the chroot (tearing the mounts down on either
outcome), seal the snapshot read-only, and promote it. -/
def atomic_install (env : Env) (w : World) (package : String) :
    Except Err Unit × World :=
  match create_deployment env w true with
  | (.error e, w1) => (.error e, w1)
  | (.ok new_deployment, w1) =>
    match bind_mounts_for_chroot env w1 new_deployment true with
    | (.error e, w2) => (.error e, w2)
    | (.ok _, w2) =>
      if !env.chrootOk then
        match bind_mounts_for_chroot env w2 new_deployment false with
        | (.error e, w3) => (.error e, w3)
        | (.ok _, w3) => (.error .chrootFailed, w3)
      else
        match bind_mounts_for_chroot env w2 new_deployment false with
        | (.error e, w3) => (.error e, w3)
        | (.ok _, w3) =>
          match set_subvolume_readonly env w3 new_deployment true with
          | (.error e, w4) => (.error e, w4)
          | (.ok _, w4) => switch_to_deployment env w4 new_deployment

/-- `atomic_remove` from `main.rs`: identical control flow to
`atomic_install`, with the APT remove command inside the chroot. -/
def atomic_remove (env : Env) (w : World) (package : String) :
    Except Err Unit × World :=
  match create_deployment env w true with
  | (.error e, w1) => (.error e, w1)
  | (.ok new_deployment, w1) =>
    match bind_mounts_for_chroot env w1 new_deployment true with
    | (.error e, w2) => (.error e, w2)
    | (.ok _, w2) =>
      if !env.chrootOk then
        match bind_mounts_for_chroot env w2 new_deployment false with
        | (.error e, w3) => (.error e, w3)
        | (.ok _, w3) => (.error .chrootFailed, w3)
      else
        match bind_mounts_for_chroot env w2 new_deployment false with
        | (.error e, w3) => (.error e, w3)
        | (.ok _, w3) =>
          match set_subvolume_readonly env w3 new_deployment true with
          | (.error e, w4) => (.error e, w4)
          | (.ok _, w4) => switch_to_deployment env w4 new_deployment

/-- The history as `get_deployments` computes it (full paths, listing
order). -/
def historyPaths (w : World) : List String :=
  (w.deployments.filter (fun n => strStartsWith n "hammer-")).map
    (fun n => DEPLOYMENTS_DIR ++ "/" ++ n)

/-- Environment in which every external tool succeeds. -/
def envAll : Env :=
  { today := "2025-01-15", newId := "260",
    lsOk := true, snapshotOk := true, propertySetOk := true,
    setDefaultOk := true, removeFileOk := true, symlinkOk := true,
    chrootOk := true,
    mountOk := fun _ => true, umountOk := fun _ => true,
    deleteOk := fun _ => true }

/-- A world with a single sealed deployment that the current pointer and the
default subvolume designate. -/
def wBase : World :=
  { subvols := [{ path := "/btrfs-root/deployments/hammer-2025-01-14",
                  id := "256", ro := true }],
    otherPaths := [],
    defaultSubvol := "256",
    current := some "/btrfs-root/deployments/hammer-2025-01-14",
    mounts := [],
    deployments := ["hammer-2025-01-14"] }

/-- A world with seven sealed deployments `hammer-2025-01-08` ..
`hammer-2025-01-14` (ids "250" .. "256"); the current pointer and the
default designate the oldest one, `hammer-2025-01-08`. -/
def wSeven : World :=
  { subvols := [
      { path := "/btrfs-root/deployments/hammer-2025-01-08", id := "250", ro := true },
      { path := "/btrfs-root/deployments/hammer-2025-01-09", id := "251", ro := true },
      { path := "/btrfs-root/deployments/hammer-2025-01-10", id := "252", ro := true },
      { path := "/btrfs-root/deployments/hammer-2025-01-11", id := "253", ro := true },
      { path := "/btrfs-root/deployments/hammer-2025-01-12", id := "254", ro := true },
      { path := "/btrfs-root/deployments/hammer-2025-01-13", id := "255", ro := true },
      { path := "/btrfs-root/deployments/hammer-2025-01-14", id := "256", ro := true }],
    otherPaths := [],
    defaultSubvol := "250",
    current := some "/btrfs-root/deployments/hammer-2025-01-08",
    mounts := [],
    deployments := ["hammer-2025-01-08", "hammer-2025-01-09",
      "hammer-2025-01-10", "hammer-2025-01-11", "hammer-2025-01-12",
      "hammer-2025-01-13", "hammer-2025-01-14"] }

/-- A world with two sealed deployments, the current pointer and the default
on the newer one. -/
def wTwo : World :=
  { subvols := [{ path := "/btrfs-root/deployments/hammer-2025-01-13",
                  id := "250", ro := true },
                { path := "/btrfs-root/deployments/hammer-2025-01-14",
                  id := "256", ro := true }],
    otherPaths := [],
    defaultSubvol := "256",
    current := some "/btrfs-root/deployments/hammer-2025-01-14",
    mounts := [],
    deployments := ["hammer-2025-01-13", "hammer-2025-01-14"] }

/-- `wBase` extended with a writable subvolume reachable through a `..`
component under the deployments directory. -/
def wEscape : World :=
  { subvols := [{ path := "/btrfs-root/deployments/hammer-2025-01-14",
                  id := "256", ro := true },
                { path := "/btrfs-root/deployments/../escape",
                  id := "999", ro := false }],
    otherPaths := [],
    defaultSubvol := "256",
    current := some "/btrfs-root/deployments/hammer-2025-01-14",
    mounts := [],
    deployments := ["hammer-2025-01-14"] }

end Hammer

deriving instance DecidableEq for Except

namespace ProgressBar

/-- The mutable state of `progress-bar/src/main.rs`: the bar length set by
`set_total`, the position counter, the message, and whether `done` finished
the bar. -/
structure PState where
  total : Nat
  current : Nat
  message : String
  finished : Bool
deriving Repr, DecidableEq

/-- The state before the loop: `total = 0`, `current = 0`,
`message = "Initializing..."`. -/
def initPState : PState :=
  { total := 0, current := 0, message := "Initializing...", finished := false }

/-- Rust `str::parse::<u64>`: an optional leading plus sign, then one or more
ASCII digits, rejecting values outside the `u64` range. -/
def parseU64 (s : String) : Option Nat :=
  let t := if strStartsWith s "+" then strDrop s 1 else s
  if t.data.length > 0 && t.data.all (fun c => c.isDigit) then
    let v := t.data.foldl (fun acc c => acc * 10 + (c.toNat - 48)) 0
    if v < 2 ^ 64 then some v else none
  else none

/-- The stdin loop of `progress-bar/src/main.rs`, one step per input line:
trim, skip blank lines, handle `set_total <n>` (ignored when the number does
not parse), `msg <text>`, `update` (the `u64` counter wraps), and `done`
(which breaks the loop); any other line is ignored. -/
def runFilter : List String → PState → PState
  | [], s => s
  | l :: rest, s =>
    let line := strTrim l
    if line.data.isEmpty then runFilter rest s
    else if strStartsWith line "set_total " then
      match parseU64 (strDrop line 10) with
      | some t => runFilter rest { s with total := t }
      | none => runFilter rest s
    else if strStartsWith line "msg " then
      runFilter rest { s with message := strDrop line 4 }
    else if line == "update" then
      runFilter rest { s with current := (s.current + 1) % 2 ^ 64 }
    else if line == "done" then
      { s with finished := true }
    else runFilter rest s

/-- The number of (trimmed) `update` lines occurring before the first
(trimmed) `done` line. -/
def updatesBeforeDone : List String → Nat
  | [] => 0
  | l :: rest =>
    let line := strTrim l
    if line == "done" then 0
    else if line == "update" then updatesBeforeDone rest + 1
    else updatesBeforeDone rest

/-- A line the filter ignores: blank after trimming, a `set_total` line
whose argument does not parse, or a line matching no directive. -/
def ignoredLine (l : String) : Prop :=
  (strTrim l).data.isEmpty = true ∨
  (strStartsWith (strTrim l) "set_total " = true ∧
    parseU64 (strDrop (strTrim l) 10) = none) ∨
  (strStartsWith (strTrim l) "set_total " = false ∧
    strStartsWith (strTrim l) "msg " = false ∧
    strTrim l ≠ "update" ∧ strTrim l ≠ "done")

end ProgressBar

/-!
## Order facts about the string comparison
-/

theorem charLtb_eq_true_iff (a b : Char) :
    charLtb a b = true ↔ a.toNat < b.toNat := by
  simp [charLtb]

theorem char_eq_of_toNat_eq (a b : Char) (h : a.toNat = b.toNat) : a = b := by
  have := congrArg Char.ofNat h
  simpa using this

theorem lexLe_nil_left (b : List Char) : lexLe [] b = true := rfl

theorem lexLe_total (a b : List Char) : lexLe a b = true ∨ lexLe b a = true := by
  induction a generalizing b with
  | nil => exact Or.inl (lexLe_nil_left b)
  | cons x xs ih =>
    cases b with
    | nil => exact Or.inr (lexLe_nil_left _)
    | cons y ys =>
      rcases Nat.lt_trichotomy x.toNat y.toNat with h | h | h
      · left
        simp [lexLe, charLtb_eq_true_iff, h]
      · rcases ih ys with h2 | h2
        · left
          simp [lexLe, charLtb_eq_true_iff, h, h2]
        · right
          simp [lexLe, charLtb_eq_true_iff, h.symm, h2]
      · right
        simp [lexLe, charLtb_eq_true_iff, h]

theorem lexLe_cons_inv (x y : Char) (xs ys : List Char)
    (h : lexLe (x :: xs) (y :: ys) = true) :
    x.toNat < y.toNat ∨ (x.toNat = y.toNat ∧ lexLe xs ys = true) := by
  by_cases h1 : charLtb x y = true
  · exact Or.inl ((charLtb_eq_true_iff x y).mp h1)
  · by_cases h2 : charLtb y x = true
    · exfalso
      simp [lexLe, h1, h2] at h
    · refine Or.inr ⟨?_, by simpa [lexLe, h1, h2] using h⟩
      have n1 := (charLtb_eq_true_iff x y).not.mp h1
      have n2 := (charLtb_eq_true_iff y x).not.mp h2
      omega

theorem lexLe_cons_of (x y : Char) (xs ys : List Char)
    (h : x.toNat < y.toNat ∨ (x.toNat = y.toNat ∧ lexLe xs ys = true)) :
    lexLe (x :: xs) (y :: ys) = true := by
  rcases h with h | ⟨heq, htail⟩
  · simp [lexLe, charLtb_eq_true_iff, h]
  · have n1 : ¬ x.toNat < y.toNat := by omega
    have n2 : ¬ y.toNat < x.toNat := by omega
    simp [lexLe, charLtb_eq_true_iff, n1, n2, htail]

theorem lexLe_trans (a b c : List Char) (hab : lexLe a b = true)
    (hbc : lexLe b c = true) : lexLe a c = true := by
  induction a generalizing b c with
  | nil => exact lexLe_nil_left c
  | cons x xs ih =>
    cases b with
    | nil => simp [lexLe] at hab
    | cons y ys =>
      cases c with
      | nil => simp [lexLe] at hbc
      | cons z zs =>
        rcases lexLe_cons_inv x y xs ys hab with h1 | ⟨h1, t1⟩ <;>
          rcases lexLe_cons_inv y z ys zs hbc with h2 | ⟨h2, t2⟩
        · exact lexLe_cons_of x z xs zs (Or.inl (by omega))
        · exact lexLe_cons_of x z xs zs (Or.inl (by omega))
        · exact lexLe_cons_of x z xs zs (Or.inl (by omega))
        · exact lexLe_cons_of x z xs zs (Or.inr ⟨by omega, ih ys zs t1 t2⟩)

instance : IsTotal String strOrd :=
  ⟨fun a b => lexLe_total a.data b.data⟩

instance : IsTrans String strOrd :=
  ⟨fun a b c hab hbc => lexLe_trans a.data b.data c.data hab hbc⟩

theorem string_data_inj (a b : String) (h : a.data = b.data) : a = b := by
  cases a
  cases b
  cases h
  rfl

theorem string_append_left_cancel (p a b : String) (h : p ++ a = p ++ b) :
    a = b := by
  apply string_data_inj
  have := congrArg String.data h
  simp only [String.data_append] at this
  exact List.append_cancel_left this

theorem hammer_path_concat (t : String) :
    Hammer.DEPLOYMENTS_DIR ++ "/" ++ ("hammer-" ++ t) =
      Hammer.DEPLOYMENTS_DIR ++ "/hammer-" ++ t := rfl

/-!
## Frame lemmas: which parts of the world each operation can touch
-/

namespace Hammer

theorem set_subvolume_readonly_frame (env : Env) (w : World) (p : String)
    (b : Bool) (r : Except Err Unit) (w2 : World)
    (h : set_subvolume_readonly env w p b = (r, w2)) :
    w2.defaultSubvol = w.defaultSubvol ∧ w2.current = w.current ∧
    w2.mounts = w.mounts ∧ w2.deployments = w.deployments ∧
    w2.otherPaths = w.otherPaths := by
  unfold set_subvolume_readonly at h
  split at h <;> (cases h; simp)

theorem addPath_frame (w : World) (p : String) :
    (addPath w p).subvols = w.subvols ∧
    (addPath w p).defaultSubvol = w.defaultSubvol ∧
    (addPath w p).current = w.current ∧
    (addPath w p).mounts = w.mounts ∧
    (addPath w p).deployments = w.deployments := by
  unfold addPath
  split <;> simp

theorem bindMountsGo_frame (env : Env) (cp : String) (m : Bool)
    (dirs : List String) (w : World) :
    ((bindMountsGo env cp m dirs w).2).subvols = w.subvols ∧
    ((bindMountsGo env cp m dirs w).2).defaultSubvol = w.defaultSubvol ∧
    ((bindMountsGo env cp m dirs w).2).current = w.current ∧
    ((bindMountsGo env cp m dirs w).2).deployments = w.deployments := by
  induction dirs generalizing w with
  | nil => simp [bindMountsGo]
  | cons d rest ih =>
    unfold bindMountsGo
    have ha := addPath_frame w (cp ++ "/" ++ d)
    split
    · split
      · have := ih { addPath w (cp ++ "/" ++ d) with
          mounts := (addPath w (cp ++ "/" ++ d)).mounts ++ [cp ++ "/" ++ d] }
        simp only at this
        simp_all
      · simp_all
    · split
      · have := ih { addPath w (cp ++ "/" ++ d) with
          mounts := (addPath w (cp ++ "/" ++ d)).mounts.filter
            (fun m => decide ¬ m = cp ++ "/" ++ d) }
        simp only at this
        simp_all
      · simp_all

theorem bind_mounts_frame (env : Env) (w : World) (cp : String) (m : Bool)
    (r : Except Err Unit) (w2 : World)
    (h : bind_mounts_for_chroot env w cp m = (r, w2)) :
    w2.subvols = w.subvols ∧ w2.defaultSubvol = w.defaultSubvol ∧
    w2.current = w.current ∧ w2.deployments = w.deployments := by
  have h2 := congrArg Prod.snd h
  simp only at h2
  cases h2
  exact bindMountsGo_frame env cp m ["proc", "sys", "dev"] w

/-- Both arms of the post-seal match in `create_deployment` pass the world
through unchanged. -/
theorem matchSnd (r : Except Err Unit × World) (nd : String) :
    (match r with
      | (.ok _, w2) => ((.ok nd : Except Err String), w2)
      | (.error e, w2) => (.error e, w2)).2 = r.2 := by
  rcases r with ⟨res, w2⟩
  cases res <;> rfl

theorem ssr_snd_defaultSubvol (env : Env) (w : World) (p : String) (b : Bool) :
    ((set_subvolume_readonly env w p b).2).defaultSubvol = w.defaultSubvol := by
  unfold set_subvolume_readonly
  split <;> simp

theorem ssr_snd_current (env : Env) (w : World) (p : String) (b : Bool) :
    ((set_subvolume_readonly env w p b).2).current = w.current := by
  unfold set_subvolume_readonly
  split <;> simp

theorem ssr_snd_deployments (env : Env) (w : World) (p : String) (b : Bool) :
    ((set_subvolume_readonly env w p b).2).deployments = w.deployments := by
  unfold set_subvolume_readonly
  split <;> simp

theorem ssr_snd_mounts (env : Env) (w : World) (p : String) (b : Bool) :
    ((set_subvolume_readonly env w p b).2).mounts = w.mounts := by
  unfold set_subvolume_readonly
  split <;> simp

theorem create_snd_frame (env : Env) (w : World) (b : Bool) :
    ((create_deployment env w b).2).defaultSubvol = w.defaultSubvol ∧
    ((create_deployment env w b).2).current = w.current ∧
    ((create_deployment env w b).2).mounts = w.mounts := by
  unfold create_deployment
  cases hc : w.current with
  | none => simp [hc]
  | some cur =>
    dsimp only
    split
    · simp [hc]
    · cases hf : findSubvol w cur with
      | none => simp [hc]
      | some s =>
        dsimp only
        split
        · simp [matchSnd, ssr_snd_defaultSubvol, ssr_snd_current,
            ssr_snd_mounts, hc]
        · simp [hc]

/-- `switch_to_deployment` (promote) on any failure other than step 2
(symlink replacement) leaves the world untouched. -/
theorem switch_to_err_not_step2 (env : Env) (w : World) (d : String)
    (e : Err) (w2 : World)
    (h : switch_to_deployment env w d = (.error e, w2))
    (h1 : e ≠ .removeFileFailed) (h2 : e ≠ .symlinkFailed) :
    w2 = w := by
  unfold switch_to_deployment at h
  split at h
  · cases h
    rfl
  · dsimp only at h
    split at h
    · cases h
      rfl
    · split at h
      · split at h
        · cases h
          exact absurd rfl h1
        · split at h
          · cases h
            exact absurd rfl h2
          · cases h
      · split at h
        · cases h
          exact absurd rfl h2
        · cases h

theorem get_subvol_id_ok (w : World) (d i : String)
    (h : get_subvol_id w d = .ok i) :
    ∃ s, findSubvol w d = some s ∧ s.id = i := by
  unfold get_subvol_id at h
  split at h
  · cases h
    next s heq => exact ⟨s, heq, rfl⟩
  · cases h

theorem get_subvol_id_err (w : World) (d : String) (e : Err)
    (h : get_subvol_id w d = .error e) : e = .subvolIdFailed := by
  unfold get_subvol_id at h
  split at h
  · cases h
  · cases h
    rfl

/-- `switch_to_deployment` succeeds exactly when the target resolves and the
two steps succeed; the result world has the target's id as boot default and
the current symlink pointing at the target, everything else unchanged. -/
theorem switch_to_success (env : Env) (w : World) (d : String) (w2 : World)
    (h : switch_to_deployment env w d = (.ok (), w2)) :
    ∃ s, findSubvol w d = some s ∧
      w2 = { w with defaultSubvol := s.id, current := some d } := by
  unfold switch_to_deployment at h
  split at h
  · cases h
  · next i heq =>
    obtain ⟨s, hs, hid⟩ := get_subvol_id_ok w d i heq
    refine ⟨s, hs, ?_⟩
    subst hid
    dsimp only at h
    split at h
    · cases h
    · split at h
      · split at h
        · cases h
        · split at h
          · cases h
          · cases h
            rfl
      · split at h
        · cases h
        · cases h
          rfl

/-- When `switch_to_deployment` fails at step 2, step 1 has already set the
boot default to the target's subvolume id. -/
theorem switch_to_err_step2 (env : Env) (w : World) (d : String)
    (e : Err) (w2 : World)
    (h : switch_to_deployment env w d = (.error e, w2))
    (he : e = .removeFileFailed ∨ e = .symlinkFailed) :
    ∃ s, findSubvol w d = some s ∧ w2.defaultSubvol = s.id ∧
      w2.subvols = w.subvols := by
  unfold switch_to_deployment at h
  split at h
  · next e0 heq =>
    cases h
    have h0 := get_subvol_id_err w d _ heq
    subst h0
    simp at he
  · next i heq =>
    obtain ⟨s, hs, hid⟩ := get_subvol_id_ok w d i heq
    refine ⟨s, hs, ?_⟩
    subst hid
    dsimp only at h
    split at h
    · cases h
      simp at he
    · split at h
      · split at h
        · cases h
          exact ⟨rfl, rfl⟩
        · split at h
          · cases h
            exact ⟨rfl, rfl⟩
          · cases h
      · split at h
        · cases h
          exact ⟨rfl, rfl⟩
        · cases h

theorem not_pathExists_no_subvol (w : World) (p : String)
    (h : pathExists w p = false) :
    ∀ s ∈ w.subvols, (s.path == p) = false := by
  unfold pathExists at h
  simp only [Bool.or_eq_false_iff, List.any_eq_false] at h
  intro s hs
  simpa using h.1.1 s hs

theorem ssr_ok_subvols (env : Env) (w : World) (p : String) (b : Bool)
    (u : Unit) (w2 : World)
    (h : set_subvolume_readonly env w p b = (.ok u, w2)) :
    w2.subvols = w.subvols.map
      (fun s => if s.path == p then { s with ro := b } else s) := by
  unfold set_subvolume_readonly at h
  split at h
  · cases h
    rfl
  · cases h

/-- A successful `create_deployment` appends the snapshot
`hammer-<today>` (writable iff requested) to the store and the listing;
the destination did not previously exist. -/
theorem create_deployment_ok (env : Env) (w : World) (b : Bool) (nd : String)
    (w1 : World) (h : create_deployment env w b = (.ok nd, w1)) :
    nd = DEPLOYMENTS_DIR ++ "/hammer-" ++ env.today ∧
    pathExists w nd = false ∧
    w1.deployments = w.deployments ++ ["hammer-" ++ env.today] ∧
    w1.subvols = w.subvols ++ [{ path := nd, id := env.newId, ro := !b }] := by
  unfold create_deployment at h
  split at h
  · cases h
  · dsimp only at h
    split at h
    · cases h
    · next hp =>
      have hp2 : pathExists w (DEPLOYMENTS_DIR ++ "/hammer-" ++ env.today)
          = false := by
        cases hpe : pathExists w (DEPLOYMENTS_DIR ++ "/hammer-" ++ env.today)
        · rfl
        · exact absurd (by simp [hpe]) hp
      split at h
      · cases h
      · split at h
        · next hb =>
          subst hb
          split at h
          · next u2 w3 heq =>
            cases h
            refine ⟨rfl, hp2, ?_, ?_⟩
            · have hd := set_subvolume_readonly_frame _ _ _ _ _ _ heq
              simpa using hd.2.2.2.1
            · have hs := ssr_ok_subvols _ _ _ _ _ _ heq
              rw [hs]
              simp only at hs ⊢
              rw [List.map_append]
              have hall := not_pathExists_no_subvol w _ hp2
              congr 1
              · refine (List.map_congr_left ?_).trans (List.map_id' _)
                intro s hsm
                simp [hall s hsm]
              · simp
          · next e0 w3 heq =>
            cases h
        · next hb =>
          cases h
          simp only [Bool.not_eq_true] at hb
          subst hb
          exact ⟨rfl, hp2, rfl, rfl⟩

theorem ssr_err (env : Env) (w : World) (p : String) (b : Bool) (e : Err)
    (w2 : World) (h : set_subvolume_readonly env w p b = (.error e, w2)) :
    e = .setReadonlyFailed := by
  unfold set_subvolume_readonly at h
  split at h
  · cases h
  · cases h
    rfl

theorem create_deployment_err (env : Env) (w : World) (b : Bool) (e : Err)
    (w1 : World) (h : create_deployment env w b = (.error e, w1)) :
    e = .readLinkFailed ∨ e = .createFailed ∨ e = .setReadonlyFailed := by
  unfold create_deployment at h
  split at h
  · cases h
    exact Or.inl rfl
  · dsimp only at h
    split at h
    · cases h
      exact Or.inr (Or.inl rfl)
    · split at h
      · cases h
        exact Or.inr (Or.inl rfl)
      · split at h
        · split at h
          · cases h
          · next e0 w3 heq =>
            cases h
            exact Or.inr (Or.inr (ssr_err _ _ _ _ _ _ heq))
        · cases h

theorem bindMountsGo_err (env : Env) (cp : String) (m : Bool)
    (dirs : List String) (w : World) (e : Err) (w2 : World)
    (h : bindMountsGo env cp m dirs w = (.error e, w2)) :
    (∃ d, e = .mountFailed d) ∨ (∃ d, e = .umountFailed d) := by
  induction dirs generalizing w with
  | nil =>
    simp [bindMountsGo] at h
  | cons d rest ih =>
    unfold bindMountsGo at h
    split at h
    · split at h
      · exact ih _ h
      · cases h
        exact Or.inl ⟨d, rfl⟩
    · split at h
      · exact ih _ h
      · cases h
        exact Or.inr ⟨d, rfl⟩

theorem bind_mounts_err (env : Env) (w : World) (cp : String) (m : Bool)
    (e : Err) (w2 : World)
    (h : bind_mounts_for_chroot env w cp m = (.error e, w2)) :
    (∃ d, e = .mountFailed d) ∨ (∃ d, e = .umountFailed d) :=
  bindMountsGo_err env cp m ["proc", "sys", "dev"] w e w2 h

theorem map_seal_append (l : List Subvol) (nd i : String) (b0 : Bool)
    (hall : ∀ s ∈ l, (s.path == nd) = false) :
    (l ++ [({ path := nd, id := i, ro := b0 } : Subvol)]).map
      (fun s : Subvol => if s.path == nd then { s with ro := true } else s) =
    l ++ [({ path := nd, id := i, ro := true } : Subvol)] := by
  rw [List.map_append]
  congr 1
  · refine (List.map_congr_left ?_).trans (List.map_id' _)
    intro s hs
    simp [hall s hs]
  · simp

theorem findSubvol_append_new (l : List Subvol) (nd : String) (sv : Subvol)
    (hall : ∀ s ∈ l, (s.path == nd) = false) (hpath : sv.path = nd) :
    (l ++ [sv]).find? (fun s => s.path == nd) = some sv := by
  rw [List.find?_append]
  have h1 : l.find? (fun s => s.path == nd) = none :=
    List.find?_eq_none.mpr (by intro x hx; simp [hall x hx])
  rw [h1]
  simp [hpath]

/-- `atomic_remove` has the same control flow as `atomic_install`; once the
chroot APT command's outcome is abstracted into the environment, the two
functions agree. -/
theorem atomic_remove_eq_install (env : Env) (w : World) (pkg : String) :
    atomic_remove env w pkg = atomic_install env w pkg := rfl

/-- A successful `atomic_install` appends the snapshot of the day to the
store sealed read-only, sets the boot default to its freshly assigned
subvolume id, and points the current symlink at it. -/
theorem atomic_install_ok (env : Env) (w : World) (pkg : String) (w2 : World)
    (h : atomic_install env w pkg = (.ok (), w2)) :
    w2.subvols = w.subvols ++
      [({ path := DEPLOYMENTS_DIR ++ "/hammer-" ++ env.today,
          id := env.newId, ro := true } : Subvol)] ∧
    findSubvol w2 (DEPLOYMENTS_DIR ++ "/hammer-" ++ env.today) =
      some { path := DEPLOYMENTS_DIR ++ "/hammer-" ++ env.today,
             id := env.newId, ro := true } ∧
    w2.defaultSubvol = env.newId ∧
    w2.current = some (DEPLOYMENTS_DIR ++ "/hammer-" ++ env.today) := by
  unfold atomic_install at h
  split at h
  · cases h
  · next nd w1 heq1 =>
    obtain ⟨hnd, hpe, hdep, hsub⟩ := create_deployment_ok env w true nd w1 heq1
    rw [← hnd]
    have hall := not_pathExists_no_subvol w _ hpe
    split at h
    · cases h
    · next u wb heq2 =>
      have f2 := bind_mounts_frame _ _ _ _ _ _ heq2
      split at h
      · split at h
        · cases h
        · cases h
      · split at h
        · cases h
        · next u2 wu heq3 =>
          have f3 := bind_mounts_frame _ _ _ _ _ _ heq3
          split at h
          · cases h
          · next u3 ws heq4 =>
            have hsw := ssr_ok_subvols _ _ _ _ _ _ heq4
            obtain ⟨s, hfs, hw2⟩ := switch_to_success _ _ _ _ h
            have hwssub : ws.subvols = w.subvols ++
                [({ path := nd, id := env.newId, ro := true } : Subvol)] := by
              rw [hsw, f3.1, f2.1, hsub]
              simpa using map_seal_append w.subvols nd env.newId false hall
            have hfind : findSubvol ws nd =
                some { path := nd, id := env.newId, ro := true } := by
              unfold findSubvol
              rw [hwssub]
              exact findSubvol_append_new _ _ _ hall rfl
            rw [hfind] at hfs
            cases hfs
            subst hw2
            refine ⟨hwssub, hfind, rfl, rfl⟩

/-- When `atomic_install` fails at promote step 2 (replacing the current
symlink), the boot default has already been moved to the freshly sealed
snapshot, which is present in the store. -/
theorem atomic_install_step2 (env : Env) (w : World) (pkg : String) (e : Err)
    (w2 : World) (h : atomic_install env w pkg = (.error e, w2))
    (he : e = .removeFileFailed ∨ e = .symlinkFailed) :
    w2.defaultSubvol = env.newId ∧
    findSubvol w2 (DEPLOYMENTS_DIR ++ "/hammer-" ++ env.today) =
      some { path := DEPLOYMENTS_DIR ++ "/hammer-" ++ env.today,
             id := env.newId, ro := true } := by
  unfold atomic_install at h
  split at h
  · next e0 w1 heq1 =>
    cases h
    rcases create_deployment_err _ _ _ _ _ heq1 with rfl | rfl | rfl <;>
      simp at he
  · next nd w1 heq1 =>
    obtain ⟨hnd, hpe, hdep, hsub⟩ := create_deployment_ok env w true nd w1 heq1
    rw [← hnd]
    have hall := not_pathExists_no_subvol w _ hpe
    split at h
    · next e0 wb heq2 =>
      cases h
      rcases bind_mounts_err _ _ _ _ _ _ heq2 with ⟨d, rfl⟩ | ⟨d, rfl⟩ <;>
        simp at he
    · next u wb heq2 =>
      have f2 := bind_mounts_frame _ _ _ _ _ _ heq2
      split at h
      · split at h
        · next e0 wu heq3 =>
          cases h
          rcases bind_mounts_err _ _ _ _ _ _ heq3 with ⟨d, rfl⟩ | ⟨d, rfl⟩ <;>
            simp at he
        · cases h
          simp at he
      · split at h
        · next e0 wu heq3 =>
          cases h
          rcases bind_mounts_err _ _ _ _ _ _ heq3 with ⟨d, rfl⟩ | ⟨d, rfl⟩ <;>
            simp at he
        · next u2 wu heq3 =>
          have f3 := bind_mounts_frame _ _ _ _ _ _ heq3
          split at h
          · next e0 ws heq4 =>
            cases h
            have := ssr_err _ _ _ _ _ _ heq4
            subst this
            simp at he
          · next u3 ws heq4 =>
            have hsw := ssr_ok_subvols _ _ _ _ _ _ heq4
            obtain ⟨s, hfs, hdef, hsubeq⟩ :=
              switch_to_err_step2 _ _ _ _ _ h he
            have hwssub : ws.subvols = w.subvols ++
                [({ path := nd, id := env.newId, ro := true } : Subvol)] := by
              rw [hsw, f3.1, f2.1, hsub]
              simpa using map_seal_append w.subvols nd env.newId false hall
            have hfind : findSubvol ws nd =
                some { path := nd, id := env.newId, ro := true } := by
              unfold findSubvol
              rw [hwssub]
              exact findSubvol_append_new _ _ _ hall rfl
            rw [hfind] at hfs
            cases hfs
            refine ⟨hdef, ?_⟩
            unfold findSubvol
            rw [hsubeq, hwssub]
            exact findSubvol_append_new _ _ _ hall rfl

/-- Any failure of `atomic_install` other than at promote step 2 leaves the
boot default and the current pointer at their pre-call values. -/
theorem atomic_install_failure_frame (env : Env) (w : World) (pkg : String)
    (e : Err) (w2 : World)
    (h : atomic_install env w pkg = (.error e, w2))
    (h1 : e ≠ .removeFileFailed) (h2 : e ≠ .symlinkFailed) :
    w2.defaultSubvol = w.defaultSubvol ∧ w2.current = w.current := by
  unfold atomic_install at h
  split at h
  · next e0 w1 heq1 =>
    cases h
    have hs := congrArg Prod.snd heq1
    simp only at hs
    rw [← hs]
    exact ⟨(create_snd_frame env w true).1, (create_snd_frame env w true).2.1⟩
  · next nd w1 heq1 =>
    have f1 : w1.defaultSubvol = w.defaultSubvol ∧ w1.current = w.current := by
      have hs := congrArg Prod.snd heq1
      simp only at hs
      rw [← hs]
      exact ⟨(create_snd_frame env w true).1, (create_snd_frame env w true).2.1⟩
    split at h
    · next e0 wb heq2 =>
      cases h
      have f2 := bind_mounts_frame env w1 nd true _ _ heq2
      exact ⟨f2.2.1.trans f1.1, f2.2.2.1.trans f1.2⟩
    · next u wb heq2 =>
      have f2 := bind_mounts_frame env w1 nd true _ _ heq2
      split at h
      · split at h
        · next e0 wu heq3 =>
          cases h
          have f3 := bind_mounts_frame env wb nd false _ _ heq3
          exact ⟨(f3.2.1.trans f2.2.1).trans f1.1,
            (f3.2.2.1.trans f2.2.2.1).trans f1.2⟩
        · next u2 wu heq3 =>
          cases h
          have f3 := bind_mounts_frame env wb nd false _ _ heq3
          exact ⟨(f3.2.1.trans f2.2.1).trans f1.1,
            (f3.2.2.1.trans f2.2.2.1).trans f1.2⟩
      · split at h
        · next e0 wu heq3 =>
          cases h
          have f3 := bind_mounts_frame env wb nd false _ _ heq3
          exact ⟨(f3.2.1.trans f2.2.1).trans f1.1,
            (f3.2.2.1.trans f2.2.2.1).trans f1.2⟩
        · next u2 wu heq3 =>
          have f3 := bind_mounts_frame env wb nd false _ _ heq3
          split at h
          · next e0 ws heq4 =>
            cases h
            have f4 := set_subvolume_readonly_frame env wu nd true _ _ heq4
            exact ⟨((f4.1.trans f3.2.1).trans f2.2.1).trans f1.1,
              ((f4.2.1.trans f3.2.2.1).trans f2.2.2.1).trans f1.2⟩
          · next u3 ws heq4 =>
            have f4 := set_subvolume_readonly_frame env wu nd true _ _ heq4
            have hw := switch_to_err_not_step2 env ws nd e w2 h h1 h2
            subst hw
            exact ⟨((f4.1.trans f3.2.1).trans f2.2.1).trans f1.1,
              ((f4.2.1.trans f3.2.2.1).trans f2.2.2.1).trans f1.2⟩

end Hammer

/-!
## Claim theorems
-/

namespace Hammer

theorem create_ok_current (env : Env) (w : World) (b : Bool) (nd : String)
    (w1 : World) (h : create_deployment env w b = (.ok nd, w1)) :
    ∃ cur, w.current = some cur := by
  unfold create_deployment at h
  split at h
  · cases h
  · next cur heq => exact ⟨cur, heq⟩

/-- **C1.** For every failed `atomic install` or `atomic remove` (failure at
snapshot creation, mount setup, the chroot APT step, sealing, or promote
step 1 — that is, any error other than the two promote-step-2 errors
`removeFileFailed`/`symlinkFailed`), the filesystem's next-boot default and
the current pointer equal their values before the call. -/
theorem atomic_failure_keeps_boot_state (env : Env) (w : World) (pkg : String)
    (e : Err) (w2 : World)
    (hcall : atomic_install env w pkg = (.error e, w2) ∨
             atomic_remove env w pkg = (.error e, w2))
    (h1 : e ≠ .removeFileFailed) (h2 : e ≠ .symlinkFailed) :
    w2.defaultSubvol = w.defaultSubvol ∧ w2.current = w.current := by
  rcases hcall with h | h
  · exact atomic_install_failure_frame env w pkg e w2 h h1 h2
  · rw [atomic_remove_eq_install] at h
    exact atomic_install_failure_frame env w pkg e w2 h h1 h2

/-- Witness for C1: a failed chroot APT step leaves default and pointer
untouched on a concrete world. -/
theorem atomic_failure_keeps_boot_state_witness :
    ((atomic_install { envAll with chrootOk := false } wBase "vim").2).defaultSubvol
        = wBase.defaultSubvol ∧
    ((atomic_install { envAll with chrootOk := false } wBase "vim").2).current
        = wBase.current :=
  atomic_failure_keeps_boot_state { envAll with chrootOk := false } wBase "vim"
    .chrootFailed (atomic_install { envAll with chrootOk := false } wBase "vim").2
    (Or.inl (by decide)) (by decide) (by decide)

/-- **C2.** For every successful `atomic install` or `atomic remove`, the
freshly created snapshot (`<DEPLOYMENTS_DIR>/hammer-<today>`) is sealed
read-only in the store, the filesystem's next-boot default equals that
snapshot's subvolume id, and the current pointer refers to it. -/
theorem atomic_success_promotes_sealed (env : Env) (w : World) (pkg : String)
    (w2 : World)
    (hcall : atomic_install env w pkg = (.ok (), w2) ∨
             atomic_remove env w pkg = (.ok (), w2)) :
    findSubvol w2 (DEPLOYMENTS_DIR ++ "/hammer-" ++ env.today) =
      some { path := DEPLOYMENTS_DIR ++ "/hammer-" ++ env.today,
             id := env.newId, ro := true } ∧
    w2.defaultSubvol = env.newId ∧
    w2.current = some (DEPLOYMENTS_DIR ++ "/hammer-" ++ env.today) := by
  rcases hcall with h | h
  · exact (atomic_install_ok env w pkg w2 h).2
  · rw [atomic_remove_eq_install] at h
    exact (atomic_install_ok env w pkg w2 h).2

/-- Witness for C2: a fully successful atomic install on a concrete world. -/
theorem atomic_success_promotes_sealed_witness :
    findSubvol (atomic_install envAll wBase "vim").2
        (DEPLOYMENTS_DIR ++ "/hammer-" ++ envAll.today) =
      some { path := DEPLOYMENTS_DIR ++ "/hammer-" ++ envAll.today,
             id := envAll.newId, ro := true } ∧
    ((atomic_install envAll wBase "vim").2).defaultSubvol = envAll.newId ∧
    ((atomic_install envAll wBase "vim").2).current =
      some (DEPLOYMENTS_DIR ++ "/hammer-" ++ envAll.today) :=
  atomic_success_promotes_sealed envAll wBase "vim"
    (atomic_install envAll wBase "vim").2 (Or.inl (by decide))

/-- **C3.** If `deploy` (a read-only `create_deployment`) succeeds, a second
invocation in the same environment — same calendar day, so the derived name
`hammer-<YYYY-MM-DD>` already exists — fails with the snapshot-creation
error (the spec's `NameCollision`) and leaves the world unchanged: no new
usable deployment is created. -/
theorem deploy_same_day_collides (env : Env) (w : World) (d : String)
    (w1 : World) (h : create_deployment env w false = (.ok d, w1)) :
    create_deployment env w1 false = (.error .createFailed, w1) := by
  obtain ⟨hnd, hpe, hdep, hsub⟩ := create_deployment_ok env w false d w1 h
  obtain ⟨cur, hcur⟩ := create_ok_current env w false d w1 h
  have hw1c : w1.current = some cur := by
    have hs := congrArg Prod.snd h
    simp only at hs
    rw [← hs]
    rw [(create_snd_frame env w false).2.1]
    exact hcur
  have hex : pathExists w1 (DEPLOYMENTS_DIR ++ "/hammer-" ++ env.today)
      = true := by
    unfold pathExists
    rw [hsub]
    simp [hnd]
  unfold create_deployment
  rw [hw1c]
  simp [hex]

/-- Witness for C3: deploying twice on 2025-01-15 on a concrete world. -/
theorem deploy_same_day_collides_witness :
    create_deployment envAll (create_deployment envAll wBase false).2 false =
      (.error .createFailed, (create_deployment envAll wBase false).2) :=
  deploy_same_day_collides envAll wBase
    "/btrfs-root/deployments/hammer-2025-01-15"
    (create_deployment envAll wBase false).2 (by decide)

/-- **C7 counterexample.** When promote step 2 fails (the `symlink` call
fails after the default subvolume was set), `atomic_install` returns an
error — the operation does *not* count as successful, refuting the claim
that the error is reported only as a non-fatal warning.  (The second
conjunct shows the boot default did move to the new snapshot's id "260".) -/
theorem atomic_step2_not_warning_counterexample :
    (atomic_install { envAll with symlinkOk := false } wBase "vim").1 =
      .error .symlinkFailed ∧
    ((atomic_install { envAll with symlinkOk := false } wBase "vim").2).defaultSubvol
      = "260" := by
  constructor <;> decide

/-- **C7 (amended).** If, during promote, replacing the current pointer
(step 2) fails after the default subvolume has been set (step 1), the atomic
operation reports the error as a failure (the call returns that error), and
the next-boot default remains the newly promoted snapshot (the sealed
snapshot of the day, still present in the store). -/
theorem atomic_step2_failure_keeps_default (env : Env) (w : World)
    (pkg : String) (e : Err) (w2 : World)
    (hcall : atomic_install env w pkg = (.error e, w2) ∨
             atomic_remove env w pkg = (.error e, w2))
    (he : e = .removeFileFailed ∨ e = .symlinkFailed) :
    w2.defaultSubvol = env.newId ∧
    findSubvol w2 (DEPLOYMENTS_DIR ++ "/hammer-" ++ env.today) =
      some { path := DEPLOYMENTS_DIR ++ "/hammer-" ++ env.today,
             id := env.newId, ro := true } := by
  rcases hcall with h | h
  · exact atomic_install_step2 env w pkg e w2 h he
  · rw [atomic_remove_eq_install] at h
    exact atomic_install_step2 env w pkg e w2 h he

/-- Witness for the amended C7 on a concrete world. -/
theorem atomic_step2_failure_keeps_default_witness :
    ((atomic_install { envAll with symlinkOk := false } wBase "vim").2).defaultSubvol
        = ({ envAll with symlinkOk := false } : Env).newId ∧
    findSubvol (atomic_install { envAll with symlinkOk := false } wBase "vim").2
        (DEPLOYMENTS_DIR ++ "/hammer-" ++
          ({ envAll with symlinkOk := false } : Env).today) =
      some { path := DEPLOYMENTS_DIR ++ "/hammer-" ++
               ({ envAll with symlinkOk := false } : Env).today,
             id := ({ envAll with symlinkOk := false } : Env).newId,
             ro := true } :=
  atomic_step2_failure_keeps_default { envAll with symlinkOk := false } wBase
    "vim" .symlinkFailed
    (atomic_install { envAll with symlinkOk := false } wBase "vim").2
    (Or.inl (by decide)) (Or.inr rfl)

end Hammer

namespace Hammer

theorem addPath_mounts (w : World) (p : String) :
    (addPath w p).mounts = w.mounts :=
  (addPath_frame w p).2.2.2.1

/-- **C6 counterexample.** With `/proc` mounting succeeding and `/sys`
mounting failing, the harness reports `MountFailed("sys")` but the bind
mount of `/proc` it just established is still in place — partial mounts are
not rolled back, refuting the claim. -/
theorem mount_failure_no_rollback_counterexample :
    (bind_mounts_for_chroot { envAll with mountOk := fun d => d == "proc" }
        wBase "/snap" true).1 = .error (.mountFailed "sys") ∧
    ((bind_mounts_for_chroot { envAll with mountOk := fun d => d == "proc" }
        wBase "/snap" true).2).mounts = ["/snap/proc"] ∧
    ((bind_mounts_for_chroot { envAll with mountOk := fun d => d == "proc" }
        wBase "/snap" true).2).mounts ≠ [] := by
  refine ⟨by decide, by decide, by decide⟩

/-- **C6 (amended).** If establishing one of the three bind mounts fails,
the harness returns `MountFailed(dir)` for the first failing directory
immediately, and the bind mounts established earlier in the same call are
left mounted (no rollback of partial mounts). -/
theorem mount_failure_keeps_partial_mounts (env : Env) (w : World)
    (cp : String) :
    (env.mountOk "proc" = false →
      (bind_mounts_for_chroot env w cp true).1 = .error (.mountFailed "proc") ∧
      ((bind_mounts_for_chroot env w cp true).2).mounts = w.mounts) ∧
    (env.mountOk "proc" = true → env.mountOk "sys" = false →
      (bind_mounts_for_chroot env w cp true).1 = .error (.mountFailed "sys") ∧
      ((bind_mounts_for_chroot env w cp true).2).mounts =
        w.mounts ++ [cp ++ "/" ++ "proc"]) ∧
    (env.mountOk "proc" = true → env.mountOk "sys" = true →
      env.mountOk "dev" = false →
      (bind_mounts_for_chroot env w cp true).1 = .error (.mountFailed "dev") ∧
      ((bind_mounts_for_chroot env w cp true).2).mounts =
        w.mounts ++ [cp ++ "/" ++ "proc", cp ++ "/" ++ "sys"]) := by
  refine ⟨fun h1 => ?_, fun h1 h2 => ?_, fun h1 h2 h3 => ?_⟩ <;>
    simp [bind_mounts_for_chroot, bindMountsGo, h1, addPath_mounts, *]

/-- Witness for the amended C6: `/sys` fails after `/proc` succeeded on a
concrete world. -/
theorem mount_failure_keeps_partial_mounts_witness :
    (bind_mounts_for_chroot { envAll with mountOk := fun d => d == "proc" }
        wBase "/snap" true).1 = .error (.mountFailed "sys") ∧
    ((bind_mounts_for_chroot { envAll with mountOk := fun d => d == "proc" }
        wBase "/snap" true).2).mounts =
      wBase.mounts ++ ["/snap" ++ "/" ++ "proc"] :=
  (mount_failure_keeps_partial_mounts
      { envAll with mountOk := fun d => d == "proc" } wBase "/snap").2.1
    (by decide) (by decide)

theorem get_subvol_id_of_find (w : World) (d : String) (s : Subvol)
    (hs : findSubvol w d = some s) : get_subvol_id w d = .ok s.id := by
  unfold get_subvol_id
  rw [hs]

/-- Forward computation of a fully successful promote. -/
theorem switch_to_deployment_eq_ok (env : Env) (w : World) (d : String)
    (s : Subvol) (hs : findSubvol w d = some s) (hsd : env.setDefaultOk = true)
    (hrm : env.removeFileOk = true) (hsl : env.symlinkOk = true) :
    switch_to_deployment env w d =
      (.ok (), { w with defaultSubvol := s.id, current := some d }) := by
  unfold switch_to_deployment
  rw [get_subvol_id_of_find w d s hs]
  cases hc : w.current <;> simp [hsd, hrm, hsl, hc]

/-- **C10.** For `switch` with an explicit id the target is the plain string
concatenation `<DEPLOYMENTS_DIR>/<id>` with no validation of the id: any id
whose concatenated path exists (here: resolves to a subvolume) is accepted
and promoted — the hypotheses place no constraint on the id's shape, so ids
containing `..` components, ids lacking the `hammer-` prefix, and ids not in
the history are all accepted. -/
theorem switch_explicit_no_validation (env : Env) (w : World) (dep : String)
    (s : Subvol)
    (hsub : findSubvol w (DEPLOYMENTS_DIR ++ "/" ++ dep) = some s)
    (hsd : env.setDefaultOk = true) (hrm : env.removeFileOk = true)
    (hsl : env.symlinkOk = true) :
    switch_deployment env w (some dep) =
      (.ok (), { w with
          defaultSubvol := s.id
          current := some (DEPLOYMENTS_DIR ++ "/" ++ dep) }) := by
  unfold switch_deployment
  have hmem := List.mem_of_find?_eq_some hsub
  have hp := List.find?_some hsub
  have hex : pathExists w (DEPLOYMENTS_DIR ++ "/" ++ dep) = true := by
    unfold pathExists
    have hany : w.subvols.any
        (fun x => x.path == DEPLOYMENTS_DIR ++ "/" ++ dep) = true :=
      List.any_eq_true.mpr ⟨s, hmem, hp⟩
    simp [hany]
  dsimp only
  rw [hex]
  simp only [Bool.not_true, Bool.false_eq_true, if_false]
  exact switch_to_deployment_eq_ok env w _ s hsub hsd hrm hsl

/-- Witness for C10: the id `../escape` — outside the history, without the
`hammer-` prefix, resolving outside the deployments directory — is accepted
and promoted. -/
theorem switch_explicit_no_validation_witness :
    switch_deployment envAll wEscape (some "../escape") =
      (.ok (), { wEscape with
          defaultSubvol := "999"
          current := some (DEPLOYMENTS_DIR ++ "/" ++ "../escape") }) :=
  switch_explicit_no_validation envAll wEscape "../escape"
    { path := "/btrfs-root/deployments/../escape", id := "999", ro := false }
    (by decide) (by decide) (by decide) (by decide)

end Hammer

namespace Hammer

theorem get_deployments_ok (env : Env) (w : World) (hls : env.lsOk = true) :
    get_deployments env w = .ok (historyPaths w) := by
  unfold get_deployments historyPaths
  simp [hls]

/-- **C4.** `switch` without an argument sorts the history lexicographically
and promotes the second-newest entry; under an environment in which the
external tools succeed and a store that resolves every history entry, it
fails (with the insufficient-history error) if and only if the history has
fewer than two entries. -/
theorem findSubvol_mem_pred (w : World) (p : String) (s : Subvol)
    (h : findSubvol w p = some s) : s ∈ w.subvols ∧ (s.path == p) = true := by
  unfold findSubvol at h
  refine ⟨List.mem_of_find?_eq_some h, ?_⟩
  exact List.find?_some (p := fun x : Subvol => x.path == p) h

theorem switch_rollback_second_newest (env : Env) (w : World)
    (hls : env.lsOk = true) (hsd : env.setDefaultOk = true)
    (hrm : env.removeFileOk = true) (hsl : env.symlinkOk = true)
    (hres : ∀ p ∈ historyPaths w, (findSubvol w p).isSome) :
    ((historyPaths w).length < 2 →
      switch_deployment env w none = (.error .notEnoughDeployments, w)) ∧
    (2 ≤ (historyPaths w).length →
      ∃ s, findSubvol w ((rustSort (historyPaths w)).getD
          ((historyPaths w).length - 2) "") = some s ∧
        switch_deployment env w none =
          (.ok (), { w with
              defaultSubvol := s.id
              current := some ((rustSort (historyPaths w)).getD
                ((historyPaths w).length - 2) "") })) := by
  constructor
  · intro hlen
    unfold switch_deployment
    rw [get_deployments_ok env w hls]
    dsimp only
    rw [if_pos hlen]
  · intro hlen
    have hlt : (historyPaths w).length - 2 < (rustSort (historyPaths w)).length := by
      unfold rustSort
      rw [List.length_insertionSort]
      omega
    have hmem : (rustSort (historyPaths w)).getD
        ((historyPaths w).length - 2) "" ∈ historyPaths w := by
      have h1 : (rustSort (historyPaths w)).getD
          ((historyPaths w).length - 2) "" ∈ rustSort (historyPaths w) := by
        rw [List.getD_eq_getElem?_getD, List.getElem?_eq_getElem hlt]
        exact List.getElem_mem hlt
      unfold rustSort at h1
      exact (List.mem_insertionSort strOrd).mp h1
    obtain ⟨s, hs⟩ := Option.isSome_iff_exists.mp (hres _ hmem)
    obtain ⟨hsmem, hsp⟩ := findSubvol_mem_pred w _ s hs
    refine ⟨s, hs, ?_⟩
    unfold switch_deployment
    rw [get_deployments_ok env w hls]
    dsimp only
    rw [if_neg (by omega)]
    have hlen2 : (rustSort (historyPaths w)).length - 2 =
        (historyPaths w).length - 2 := by
      unfold rustSort
      rw [List.length_insertionSort]
    rw [hlen2]
    have hany : w.subvols.any (fun x => x.path ==
        (rustSort (historyPaths w)).getD ((historyPaths w).length - 2) "")
        = true :=
      List.any_eq_true.mpr ⟨s, hsmem, hsp⟩
    have hex : pathExists w ((rustSort (historyPaths w)).getD
        ((historyPaths w).length - 2) "") = true := by
      unfold pathExists
      rw [hany]
      rfl
    rw [hex]
    simp only [Bool.not_true, Bool.false_eq_true, if_false]
    exact switch_to_deployment_eq_ok env w _ s hs hsd hrm hsl

/-- Witness for C4: rollback on a concrete two-entry history promotes the
older entry. -/
theorem switch_rollback_second_newest_witness :
    ∃ s, findSubvol wTwo ((rustSort (historyPaths wTwo)).getD
        ((historyPaths wTwo).length - 2) "") = some s ∧
      switch_deployment envAll wTwo none =
        (.ok (), { wTwo with
            defaultSubvol := s.id
            current := some ((rustSort (historyPaths wTwo)).getD
              ((historyPaths wTwo).length - 2) "") }) :=
  (switch_rollback_second_newest envAll wTwo rfl rfl rfl rfl
    (by decide)).2 (by decide)

end Hammer

namespace Hammer

theorem find?_filter_ne (l : List Subvol) (dep p : String) (hne : p ≠ dep) :
    (l.filter (fun s => decide (s.path ≠ dep))).find?
        (fun s => s.path == p) =
      l.find? (fun s => s.path == p) := by
  induction l with
  | nil => rfl
  | cons s rest ih =>
    rw [List.filter_cons]
    by_cases hs : s.path = dep
    · rw [if_neg (by simp [hs])]
      rw [ih]
      rw [List.find?_cons_of_neg rest (by
        simp only [hs]
        exact beq_false_of_ne (fun h => hne h.symm) ▸ (by simp))]
    · rw [if_pos (by simp [hs])]
      by_cases hsp : (s.path == p) = true
      · rw [List.find?_cons_of_pos (p := fun x : Subvol => x.path == p) _ hsp,
          List.find?_cons_of_pos (p := fun x : Subvol => x.path == p) _ hsp]
      · rw [List.find?_cons_of_neg (p := fun x : Subvol => x.path == p) _ hsp,
          List.find?_cons_of_neg (p := fun x : Subvol => x.path == p) _ hsp]
        exact ih

theorem findSubvol_deleteSubvol_ne (w : World) (dep p : String)
    (hne : p ≠ dep) :
    findSubvol (deleteSubvol w dep) p = findSubvol w p := by
  unfold findSubvol deleteSubvol
  simp only
  exact find?_filter_ne w.subvols dep p hne

theorem findSubvol_deleteSubvol_self (w : World) (dep : String) :
    findSubvol (deleteSubvol w dep) dep = none := by
  unfold findSubvol deleteSubvol
  simp only
  rw [List.find?_eq_none]
  intro x hx
  have hmem := (List.mem_filter.mp hx).2
  simp only [decide_eq_true_eq] at hmem
  simp [hmem]

theorem findSubvol_deleteSubvol_none (w : World) (dep p : String)
    (h : findSubvol w p = none) :
    findSubvol (deleteSubvol w dep) p = none := by
  unfold findSubvol at h ⊢
  unfold deleteSubvol
  simp only
  rw [List.find?_eq_none] at h ⊢
  intro x hx
  exact h x (List.mem_of_mem_filter hx)

theorem deleteLoop_current (env : Env) (taken : List String) (w : World) :
    (deleteLoop env taken w).current = w.current := by
  induction taken generalizing w with
  | nil => rfl
  | cons dep rest ih =>
    unfold deleteLoop
    dsimp only
    split
    · rw [ih]
      rfl
    · exact ih w

theorem deleteLoop_none (env : Env) (taken : List String) (w : World)
    (p : String) (h : findSubvol w p = none) :
    findSubvol (deleteLoop env taken w) p = none := by
  induction taken generalizing w with
  | nil => exact h
  | cons dep rest ih =>
    unfold deleteLoop
    dsimp only
    split
    · exact ih _ (findSubvol_deleteSubvol_none w dep p h)
    · exact ih _ h

theorem deleteLoop_deployments (env : Env) (taken : List String) (w : World)
    (hdel : ∀ p, env.deleteOk p = true)
    (hres : ∀ p ∈ taken, (findSubvol w p).isSome)
    (hnd : taken.Nodup) :
    (deleteLoop env taken w).deployments =
      w.deployments.filter
        (fun n => decide (DEPLOYMENTS_DIR ++ "/" ++ n ∉ taken)) := by
  induction taken generalizing w with
  | nil => simp [deleteLoop]
  | cons dep rest ih =>
    unfold deleteLoop
    dsimp only
    rw [if_pos (by
      rw [hdel dep, hres dep (List.mem_cons_self dep rest)]
      rfl)]
    have hres2 : ∀ p ∈ rest, (findSubvol (deleteSubvol w dep) p).isSome := by
      intro p hp
      have hpd : p ≠ dep := by
        intro hcontra
        subst hcontra
        exact (List.nodup_cons.mp hnd).1 hp
      rw [findSubvol_deleteSubvol_ne w dep p hpd]
      exact hres p (List.mem_cons_of_mem dep hp)
    rw [ih (deleteSubvol w dep) hres2 (List.Nodup.of_cons hnd)]
    unfold deleteSubvol
    simp only
    rw [List.filter_filter]
    refine List.filter_congr ?_
    intro n hn
    simp only [List.mem_cons, not_or, decide_not]
    cases h1 : decide (DEPLOYMENTS_DIR ++ "/" ++ n = dep) <;>
      cases h2 : decide (DEPLOYMENTS_DIR ++ "/" ++ n ∈ rest) <;>
        simp_all

theorem deleteLoop_kills (env : Env) (taken : List String) (w : World)
    (hdel : ∀ q, env.deleteOk q = true)
    (hres : ∀ q ∈ taken, (findSubvol w q).isSome)
    (hnd : taken.Nodup) :
    ∀ p ∈ taken, findSubvol (deleteLoop env taken w) p = none := by
  induction taken generalizing w with
  | nil =>
    intro p hp
    simp at hp
  | cons dep rest ih =>
    intro p hp
    unfold deleteLoop
    dsimp only
    rw [if_pos (by
      rw [hdel dep, hres dep (List.mem_cons_self dep rest)]
      rfl)]
    have hres2 : ∀ q ∈ rest, (findSubvol (deleteSubvol w dep) q).isSome := by
      intro q hq
      have hqd : q ≠ dep := by
        intro hcontra
        subst hcontra
        exact (List.nodup_cons.mp hnd).1 hq
      rw [findSubvol_deleteSubvol_ne w dep q hqd]
      exact hres q (List.mem_cons_of_mem dep hq)
    rcases List.mem_cons.mp hp with rfl | hp2
    · exact deleteLoop_none env rest _ p (findSubvol_deleteSubvol_self w p)
    · exact ih (deleteSubvol w dep) hres2 (List.Nodup.of_cons hnd) p hp2

theorem historyPaths_nodup (w : World) (hnd : w.deployments.Nodup) :
    (historyPaths w).Nodup := by
  unfold historyPaths
  refine List.Nodup.map ?_ (hnd.filter _)
  intro a b hab
  exact string_append_left_cancel (DEPLOYMENTS_DIR ++ "/") a b hab

theorem filter_not_mem_sublists (t d : List String)
    (hdisj : ∀ a ∈ d, a ∉ t) :
    (t ++ d).filter (fun x => decide (x ∉ t)) = d := by
  rw [List.filter_append]
  rw [List.filter_eq_nil_iff.mpr (by intro a ha; simp [ha]),
    List.filter_eq_self.mpr (by intro a ha; simpa using hdisj a ha),
    List.nil_append]

end Hammer

namespace Hammer

/-- **C5.** After `clean` completes (the listing succeeding and every
individual snapshot deletion succeeding), the deployment history contains at
most 5 entries, and the retained entries are exactly the 5 lexicographically
greatest: the resulting history is a permutation of the ascending sort of
the old history with its smallest `len − 5` entries removed — and those are
exactly the entries the loop deleted, in ascending order, smallest first. -/
theorem clean_keeps_five_greatest (env : Env) (w : World)
    (hls : env.lsOk = true) (hdel : ∀ p, env.deleteOk p = true)
    (hnd : w.deployments.Nodup)
    (hres : ∀ p ∈ historyPaths w, (findSubvol w p).isSome) :
    (clean_up env w).1 = .ok () ∧
    (historyPaths (clean_up env w).2).length ≤ 5 ∧
    (historyPaths (clean_up env w).2).Perm
      ((rustSort (historyPaths w)).drop ((historyPaths w).length - 5)) := by
  have hlen : (rustSort (historyPaths w)).length =
      (historyPaths w).length := by
    unfold rustSort
    exact List.length_insertionSort _ _
  have hperm : List.Perm (rustSort (historyPaths w)) (historyPaths w) := by
    unfold rustSort
    exact List.perm_insertionSort _ _
  have hhnodup : (historyPaths w).Nodup := historyPaths_nodup w hnd
  have hsnodup : (rustSort (historyPaths w)).Nodup :=
    (List.Perm.nodup_iff hperm).mpr hhnodup
  unfold clean_up
  rw [get_deployments_ok env w hls]
  dsimp only
  by_cases hgt : (rustSort (historyPaths w)).length > 5
  · rw [if_pos hgt]
    dsimp only
    set k := (rustSort (historyPaths w)).length - 5 with hk
    set taken := (rustSort (historyPaths w)).take k with htaken
    have htk : ∀ p ∈ taken, (findSubvol w p).isSome := by
      intro p hp
      refine hres p ((List.Perm.mem_iff hperm).mp ?_)
      rw [htaken] at hp
      exact List.mem_of_mem_take hp
    have htknd : taken.Nodup := by
      rw [htaken]
      exact hsnodup.sublist (List.take_sublist k _)
    have hdeps := deleteLoop_deployments env taken w hdel htk htknd
    have hhp : historyPaths (deleteLoop env taken w) =
        (historyPaths w).filter (fun x => decide (x ∉ taken)) := by
      unfold historyPaths
      rw [hdeps]
      conv_rhs => rw [List.filter_map, List.filter_filter]
      rw [List.filter_filter]
      refine congrArg (List.map _) (List.filter_congr ?_)
      intro n hn
      simp [Function.comp, Bool.and_comm]
    have hfilter : (rustSort (historyPaths w)).filter
        (fun x => decide (x ∉ taken)) =
        (rustSort (historyPaths w)).drop k := by
      conv_lhs => rw [← List.take_append_drop k (rustSort (historyPaths w))]
      rw [← htaken]
      refine filter_not_mem_sublists taken _ ?_
      intro a ha hmem
      rw [htaken] at hmem
      exact List.disjoint_take_drop hsnodup (Nat.le_refl k) hmem ha
    have hperm2 : List.Perm (historyPaths (deleteLoop env taken w))
        ((rustSort (historyPaths w)).drop k) := by
      rw [hhp, ← hfilter]
      exact (hperm.symm).filter _
    refine ⟨rfl, ?_, ?_⟩
    · have hlen2 := hperm2.length_eq
      rw [List.length_drop] at hlen2
      omega
    · have hidx : (historyPaths w).length - 5 = k := by
        rw [hk, hlen]
      rw [hidx]
      exact hperm2
  · rw [if_neg hgt]
    dsimp only
    refine ⟨rfl, by omega, ?_⟩
    have h0 : (historyPaths w).length - 5 = 0 := by omega
    rw [h0, List.drop_zero]
    exact hperm.symm

/-- Witness for C5 on a seven-entry history: the two smallest entries are
deleted and the five greatest remain. -/
theorem clean_keeps_five_greatest_witness :
    (clean_up envAll wSeven).1 = .ok () ∧
    (historyPaths (clean_up envAll wSeven).2).length ≤ 5 ∧
    (historyPaths (clean_up envAll wSeven).2).Perm
      ((rustSort (historyPaths wSeven)).drop
        ((historyPaths wSeven).length - 5)) :=
  clean_keeps_five_greatest envAll wSeven rfl (fun _ => rfl)
    (by decide) (by decide)

end Hammer

namespace Hammer

/-- **C8 counterexample.** `clean` on a seven-entry history whose current
pointer names the lexicographically smallest entry destroys exactly that
snapshot: the delete loop never consults the current pointer, so afterwards
the pointer still names `hammer-2025-01-08` while no such snapshot exists —
refuting the claim that delete refuses to run on the snapshot named by the
current pointer. -/
theorem clean_destroys_current_counterexample :
    ((clean_up envAll wSeven).2).current =
      some "/btrfs-root/deployments/hammer-2025-01-08" ∧
    findSubvol (clean_up envAll wSeven).2
      "/btrfs-root/deployments/hammer-2025-01-08" = none := by
  constructor <;> decide

/-- **C8 (amended).** No delete performed by the program consults the
current pointer: whenever the current pointer names one of the
`len − 5` lexicographically smallest history entries, `clean`'s retention
loop destroys that snapshot; afterwards the pointer is unchanged but
dangling (it no longer resolves to a snapshot). -/
theorem clean_deletes_current_when_old (env : Env) (w : World) (c : String)
    (hls : env.lsOk = true) (hdel : ∀ p, env.deleteOk p = true)
    (hnd : w.deployments.Nodup)
    (hres : ∀ p ∈ historyPaths w, (findSubvol w p).isSome)
    (hcur : w.current = some c)
    (hc : c ∈ (rustSort (historyPaths w)).take
      ((rustSort (historyPaths w)).length - 5)) :
    ((clean_up env w).2).current = some c ∧
    findSubvol (clean_up env w).2 c = none := by
  have hgt : (rustSort (historyPaths w)).length > 5 := by
    by_contra hle
    push_neg at hle
    have h0 : (rustSort (historyPaths w)).length - 5 = 0 := by omega
    rw [h0, List.take_zero] at hc
    exact absurd hc (List.not_mem_nil c)
  have hperm : List.Perm (rustSort (historyPaths w)) (historyPaths w) := by
    unfold rustSort
    exact List.perm_insertionSort _ _
  have hsnodup : (rustSort (historyPaths w)).Nodup :=
    (List.Perm.nodup_iff hperm).mpr (historyPaths_nodup w hnd)
  have htk : ∀ p ∈ (rustSort (historyPaths w)).take
      ((rustSort (historyPaths w)).length - 5), (findSubvol w p).isSome := by
    intro p hp
    exact hres p ((List.Perm.mem_iff hperm).mp (List.mem_of_mem_take hp))
  have htknd : ((rustSort (historyPaths w)).take
      ((rustSort (historyPaths w)).length - 5)).Nodup :=
    hsnodup.sublist (List.take_sublist _ _)
  unfold clean_up
  rw [get_deployments_ok env w hls]
  dsimp only
  rw [if_pos hgt]
  dsimp only
  refine ⟨?_, ?_⟩
  · rw [deleteLoop_current]
    exact hcur
  · exact deleteLoop_kills env _ w hdel htk htknd c hc

/-- Witness for the amended C8 on the seven-entry history. -/
theorem clean_deletes_current_when_old_witness :
    ((clean_up envAll wSeven).2).current =
      some "/btrfs-root/deployments/hammer-2025-01-08" ∧
    findSubvol (clean_up envAll wSeven).2
      "/btrfs-root/deployments/hammer-2025-01-08" = none :=
  clean_deletes_current_when_old envAll wSeven
    "/btrfs-root/deployments/hammer-2025-01-08" rfl (fun _ => rfl)
    (by decide) (by decide) (by decide) (by decide)

end Hammer

namespace ProgressBar

theorem beq_false_of_startsWith (t p v : String)
    (h : strStartsWith t p = true) (hv : strStartsWith v p = false) :
    (t == v) = false := by
  cases heq : t == v
  · rfl
  · exfalso
    have ht : t = v := by simpa using heq
    subst ht
    rw [h] at hv
    cases hv

theorem beq_false_of_empty (t v : String) (h : t.data.isEmpty = true)
    (hv : v.data ≠ []) :
    (t == v) = false := by
  cases heq : t == v
  · rfl
  · exfalso
    have ht : t = v := by simpa using heq
    subst ht
    rw [List.isEmpty_iff] at h
    exact hv h

theorem runFilter_current (lines : List String) (s : PState)
    (h : s.current < 2 ^ 64) :
    (runFilter lines s).current =
      (s.current + updatesBeforeDone lines) % 2 ^ 64 := by
  induction lines generalizing s with
  | nil =>
    unfold runFilter updatesBeforeDone
    omega
  | cons l rest ih =>
    unfold runFilter updatesBeforeDone
    dsimp only
    by_cases h1 : (strTrim l).data.isEmpty = true
    · have hnd := beq_false_of_empty (strTrim l) "done" h1 (by decide)
      have hnu := beq_false_of_empty (strTrim l) "update" h1 (by decide)
      rw [if_pos h1, hnd, hnu]
      simp only [Bool.false_eq_true, if_false]
      exact ih s h
    · rw [if_neg h1]
      by_cases h2 : strStartsWith (strTrim l) "set_total " = true
      · have hnd := beq_false_of_startsWith (strTrim l) "set_total " "done"
          h2 (by decide)
        have hnu := beq_false_of_startsWith (strTrim l) "set_total " "update"
          h2 (by decide)
        rw [if_pos h2, hnd, hnu]
        simp only [Bool.false_eq_true, if_false]
        cases hp : parseU64 (strDrop (strTrim l) 10)
        · exact ih s h
        · exact ih _ h
      · rw [if_neg h2]
        by_cases h3 : strStartsWith (strTrim l) "msg " = true
        · have hnd := beq_false_of_startsWith (strTrim l) "msg " "done"
            h3 (by decide)
          have hnu := beq_false_of_startsWith (strTrim l) "msg " "update"
            h3 (by decide)
          rw [if_pos h3, hnd, hnu]
          simp only [Bool.false_eq_true, if_false]
          exact ih _ h
        · rw [if_neg h3]
          by_cases h4 : (strTrim l == "update") = true
          · have ht : strTrim l = "update" := by simpa using h4
            have hnd : (strTrim l == "done") = false := by
              rw [ht]
              decide
            rw [h4, hnd, if_pos rfl]
            simp only [Bool.false_eq_true, if_false, eq_self_iff_true,
              if_true]
            have hcur : ((s.current + 1) % 2 ^ 64) < 2 ^ 64 := by omega
            rw [ih { s with current := (s.current + 1) % 2 ^ 64 } hcur]
            simp only
            omega
          · rw [if_neg h4]
            by_cases h5 : (strTrim l == "done") = true
            · rw [h5, if_pos rfl]
              simp only [eq_self_iff_true, if_true]
              omega
            · rw [if_neg h5]
              have hnd : (strTrim l == "done") = false := by
                cases hx : strTrim l == "done"
                · rfl
                · exact absurd hx h5
              have hnu : (strTrim l == "update") = false := by
                cases hx : strTrim l == "update"
                · rfl
                · exact absurd hx h4
              rw [hnd, hnu]
              simp only [Bool.false_eq_true, if_false]
              exact ih s h

end ProgressBar

namespace ProgressBar

theorem not_empty_of_startsWith (t p : String) (hp : p.data ≠ [])
    (h : strStartsWith t p = true) : t.data.isEmpty = false := by
  cases hd : t.data with
  | nil =>
    exfalso
    unfold strStartsWith at h
    rw [hd] at h
    cases hpd : p.data with
    | nil => exact hp hpd
    | cons a as =>
      rw [hpd] at h
      simp [List.isPrefixOf] at h
  | cons a as => simp [hd]

/-- **C9 counterexample.** With `set_total 1` followed by two `update` lines
and `done`, the final position is 2 while the last `set_total` is 1: the
position is not capped at the total, refuting the "capped at the value of
the last set_total" part of the claim. -/
theorem progress_position_not_capped_counterexample :
    (runFilter ["set_total 1", "update", "update", "done"]
      initPState).current = 2 ∧
    (runFilter ["set_total 1", "update", "update", "done"]
      initPState).total = 1 ∧
    ¬((runFilter ["set_total 1", "update", "update", "done"]
        initPState).current =
      min 2 (runFilter ["set_total 1", "update", "update", "done"]
        initPState).total) := by
  refine ⟨by decide, by decide, by decide⟩

/-- **C9 (amended).** For every input sequence of directives, the final
reported position of the progress filter equals the number of `update`
lines read before the first `done`, modulo 2^64 (`u64` wrap) and *not*
capped by `set_total`; and every blank or unrecognized line — including a
`set_total` line whose argument fails to parse — leaves the filter state
(total, position, message, finished) entirely unchanged. -/
theorem progress_filter_position (lines : List String) (l : String)
    (rest : List String) (s : PState) (hl : ignoredLine l) :
    (runFilter lines initPState).current =
      updatesBeforeDone lines % 2 ^ 64 ∧
    runFilter (l :: rest) s = runFilter rest s := by
  constructor
  · have h0 := runFilter_current lines initPState (by decide)
    simpa [initPState] using h0
  · conv_lhs => rw [runFilter]
    rcases hl with h1 | ⟨h2, h3⟩ | ⟨h4, h5, h6, h7⟩
    · rw [if_pos h1]
    · have h1 := not_empty_of_startsWith (strTrim l) "set_total "
        (by decide) h2
      rw [if_neg (by simp [h1]), if_pos h2, h3]
    · by_cases h1 : (strTrim l).data.isEmpty = true
      · rw [if_pos h1]
      · rw [if_neg h1, if_neg (by simp [h4]), if_neg (by simp [h5]),
          if_neg (by simp [beq_false_of_ne h6]),
          if_neg (by simp [beq_false_of_ne h7])]

/-- Witness for the amended C9 on a concrete input: two `update` lines
before `done` (one after, which does not count), and the unrecognized line
`xyz` is a no-op. -/
theorem progress_filter_position_witness :
    (runFilter ["update", "xyz", "update", "done", "update"]
        initPState).current =
      updatesBeforeDone ["update", "xyz", "update", "done", "update"]
        % 2 ^ 64 ∧
    runFilter ["xyz", "done"] initPState = runFilter ["done"] initPState :=
  progress_filter_position ["update", "xyz", "update", "done", "update"]
    "xyz" ["done"] initPState (by unfold ignoredLine; decide)

end ProgressBar
